import Mathlib

/-!
Verification of the FacultyFinder semantic recommender core.

Shallow embedding of the Python sources:
- `src/model/recommender.py` : acronym expansion, query embedding, cosine
  scoring, `np.argsort(...)[::-1]` ranking, the filtered top-k selection
  loop, and result-record assembly.
- `src/model/build_embeddings.py` : the corpus-to-store builder.

Floats are modelled as elements of a linear ordered field (rationals in the
executable instantiations, reals where square roots are needed for cosine
similarity).  The sentence-embedding model is opaque and is modelled as an
arbitrary function `String → List α`.  `np.argsort` is modelled as a stable
ascending sort of the index list by score — exact for arrays within
numpy's 16-element insertion-sort regime, and correct up to the
(unspecified) tie order beyond it — which the source then reverses;
theorems about tie order are scoped to the regime where the model is
exact.  The scoring call's empty-matrix validation and Python list
indexing are modelled as explicit error paths.
-/

namespace FacultyFinder

/-! ## Data model -/

/-- Metadata record aligned with one embedding row, as produced by
`build_embeddings.py` (keys `id`, `name`, `email`, `link`, `faculty_type`,
`text`). -/
structure Meta where
  id : String
  name : String
  email : String
  link : String
  faculty_type : String
  text : String
deriving DecidableEq, Inhabited

/-- Corpus record consumed by `build_embeddings.main` (scraped faculty
record with a free-text field). -/
structure CorpusRecord where
  id : String
  name : String
  email : String
  link : String
  faculty_type : String
  text : String
deriving DecidableEq, Inhabited

/-- Value of one field of a Python result dict: a string or a number. -/
inductive Val (α : Type) where
  | str : String → Val α
  | num : α → Val α
deriving DecidableEq

/-- A result record is a Python dict, modelled as an association list in
insertion order. -/
abbrev ResultRec (α : Type) := List (String × Val α)

/-! ## String utilities (Python `str.lower`, `str.split`, `" ".join`) -/

/-- Python `str.lower()`. -/
def pyLower (s : String) : String :=
  String.mk (s.data.map Char.toLower)

/-- Python `str.split()` with no argument: split on whitespace runs,
dropping empty pieces. -/
def pySplit (s : String) : List String :=
  ((s.data.splitOnP (fun c => c.isWhitespace)).filter (fun w => w ≠ [])).map String.mk

/-- Python `" ".join(ws)`. -/
def pyJoinSpace : List String → String
  | [] => ""
  | [w] => w
  | w :: rest => w ++ " " ++ pyJoinSpace rest

/-! ## Acronym expansion (`recommender.py`) -/

/-- The `ACRONYM_MAP` dict of `recommender.py`. -/
def ACRONYM_MAP : List (String × String) :=
  [("ml", "machine learning"),
   ("dl", "deep learning"),
   ("ai", "artificial intelligence"),
   ("nlp", "natural language processing"),
   ("cv", "computer vision"),
   ("ir", "information retrieval"),
   ("hci", "human computer interaction"),
   ("iot", "internet of things"),
   ("dbms", "database management systems"),
   ("os", "operating systems"),
   ("ds", "data science"),
   ("nn", "neural networks"),
   ("rl", "reinforcement learning"),
   ("vlsi", "very large scale integration"),
   ("llm", "large language model")]

/-- Python `ACRONYM_MAP.get(word, word)`. -/
def expandWord (w : String) : String :=
  (ACRONYM_MAP.lookup w).getD w

/-- `expand_acronyms` from `recommender.py`:
`" ".join(ACRONYM_MAP.get(word, word) for word in query.lower().split())`. -/
def expand_acronyms (q : String) : String :=
  pyJoinSpace ((pySplit (pyLower q)).map expandWord)

/-! ## Vector arithmetic and cosine similarity -/

/-- Dot product of two vectors (`numpy` dot over aligned entries). -/
def dotp {α : Type} [LinearOrderedField α] (u v : List α) : α :=
  (List.zipWith (fun a b => a * b) u v).sum

/-- Sum of squares of the entries of a vector. -/
def sqNorm {α : Type} [LinearOrderedField α] (v : List α) : α :=
  (v.map (fun x => x * x)).sum

/-- Euclidean norm. -/
noncomputable def nrm (v : List ℝ) : ℝ :=
  Real.sqrt (sqNorm v)

/-- Row normalization as performed by `sklearn.preprocessing.normalize`:
rows of zero norm are left unchanged (the zero divisor is replaced by 1). -/
noncomputable def normalizeRow (v : List ℝ) : List ℝ :=
  if nrm v = 0 then v else v.map (fun x => x / nrm v)

/-- Cosine similarity as computed by
`sklearn.metrics.pairwise.cosine_similarity`: normalize both rows (with the
zero-norm guard) and take the dot product. -/
noncomputable def cosineSim (u v : List ℝ) : ℝ :=
  dotp (normalizeRow u) (normalizeRow v)

/-! ## Query embedding (`embed_query`) -/

/-- `embed_query` from `recommender.py`: the SentenceTransformer encoder is
opaque, modelled as an arbitrary function returning the (unit-normalized)
embedding of the text. -/
def embed_query {α : Type} (q : String) (model : String → List α) : List α :=
  model q

/-! ## Ranking (`np.argsort(similarity_scores)[::-1]`) -/

/-- Index order of a stable ascending argsort: index `i` precedes `j` when
its score is smaller, or the scores are equal and `i ≤ j` (stability). -/
def rankRel {α : Type} [LinearOrderedField α] (scores : List α) (i j : Nat) : Prop :=
  scores.getD i 0 < scores.getD j 0 ∨ (scores.getD i 0 = scores.getD j 0 ∧ i ≤ j)

instance {α : Type} [LinearOrderedField α] (scores : List α) :
    DecidableRel (rankRel scores) := fun i j => by
  unfold rankRel
  exact inferInstance

/-- `np.argsort(scores)[::-1]`.  numpy's default argsort guarantees only a
permutation of the indices in ascending score order, with no tie order
specified (its introsort is not stable); for arrays of at most 16 elements
the implementation runs its insertion sort, which IS the stable ascending
sort.  The model commits to that stable ascending sort — exact within the
insertion-sort regime, and agreeing with the program up to tie order
beyond it — and the source reverses the result.  Theorems about tie order
are scoped to the regime where this model is exact. -/
def rankedIndices {α : Type} [LinearOrderedField α] (scores : List α) : List Nat :=
  (List.insertionSort (rankRel scores) (List.range scores.length)).reverse

/-! ## Result assembly and the selection loop -/

/-- Python `round(x, 4)`: scale by `10^4`, round half to even, scale back. -/
def roundHalfEven {α : Type} [LinearOrderedField α] [FloorRing α] (x : α) : ℤ :=
  if x - ⌊x⌋ < 1 / 2 then ⌊x⌋
  else if 1 / 2 < x - ⌊x⌋ then ⌊x⌋ + 1
  else if ⌊x⌋ % 2 = 0 then ⌊x⌋ else ⌊x⌋ + 1

/-- `round(float(score), 4)` from the result-assembly line of
`recommend_faculty`. -/
def roundTo4 {α : Type} [LinearOrderedField α] [FloorRing α] (x : α) : α :=
  (roundHalfEven (x * 10000) : α) / 10000

/-- The result dict appended by `recommend_faculty` for one faculty record:
keys `id`, `name`, `faculty_type`, `similarity_score` (rounded to 4
decimals), `matched_text`, in insertion order. -/
def mkResult {α : Type} [LinearOrderedField α] [FloorRing α] (m : Meta) (score : α) : ResultRec α :=
  [("id", Val.str m.id),
   ("name", Val.str m.name),
   ("faculty_type", Val.str m.faculty_type),
   ("similarity_score", Val.num (roundTo4 score)),
   ("matched_text", Val.str m.text)]

/-- The skip test of the loop: `if faculty_type and
faculty["faculty_type"] != faculty_type: continue`.  `keepRecord f m` is
true when the record is not skipped: the filter is absent, empty (falsy),
or matches exactly. -/
def keepRecord (f : Option String) (m : Meta) : Bool :=
  match f with
  | none => true
  | some s => if s = "" then true else m.faculty_type = s

/-- The selection loop of `recommend_faculty`: walk the ranked indices,
skip filtered-out records, append a result dict per kept record, and stop
once `len(results) >= top_k` (checked after each append). `k` is the
remaining budget `top_k - len(results)`. -/
def selectLoop {α : Type} [LinearOrderedField α] [FloorRing α]
    (meta : List Meta) (scores : List α) (f : Option String) :
    Int → List Nat → List (ResultRec α)
  | _, [] => []
  | k, i :: rest =>
    if keepRecord f (meta.getD i default) then
      if k ≤ 1 then [mkResult (meta.getD i default) (scores.getD i 0)]
      else mkResult (meta.getD i default) (scores.getD i 0) ::
        selectLoop meta scores f (k - 1) rest
    else selectLoop meta scores f k rest

/-- The query vector the source uses for ranking:
`embed_query(expand_acronyms(query), model)` — a single embedding of the
acronym-expanded query text. -/
def codeQueryVector {α : Type} (model : String → List α) (q : String) : List α :=
  embed_query (expand_acronyms q) model

/-- The similarity row `cosine_similarity(query_embedding, embeddings)[0]`
in the case the call returns (a non-empty embedding matrix): one score per
stored embedding row.  The similarity function is a parameter; the source
instantiates it with `cosineSim`.  The call's input validation, which
raises on an empty matrix, is modelled separately by `cosineScores`. -/
def queryScores {α : Type} [LinearOrderedField α]
    (sim : List α → List α → α) (q : String) (emb : List (List α))
    (model : String → List α) : List α :=
  emb.map (fun row => sim (codeQueryVector model q) row)

/-- `recommend_faculty` from `recommender.py` on its non-raising path:
expand acronyms, embed the expanded query, score every stored row, rank by
descending score, then run the filtered top-k selection loop.  The runtime
failures of the same code (the scoring call's empty-matrix validation and
Python list indexing) are surfaced by `recommendExc`. -/
def recommend_faculty {α : Type} [LinearOrderedField α] [FloorRing α]
    (sim : List α → List α → α) (q : String) (emb : List (List α))
    (meta : List Meta) (model : String → List α) (top_k : Int)
    (faculty_type : Option String) : List (ResultRec α) :=
  selectLoop meta (queryScores sim q emb model) faculty_type top_k
    (rankedIndices (queryScores sim q emb model))

/-! ## Failure-aware variant of the pipeline

The specification names an error taxonomy; the source defines none of
those exceptions.  `RecErr` carries that taxonomy together with the
runtime errors the source can actually raise, so that theorems can state
which errors can and cannot occur.  The genuine failure points are the
scoring call's input validation (sklearn's `check_pairwise_arrays` runs
`check_array` with `ensure_min_samples = 1`, raising `ValueError` on a
zero-row embedding matrix) and Python list indexing (`metadata[idx]`,
reachable when the embedding matrix is longer than the metadata list). -/

/-- Error taxonomy: the three exceptions named by the specification (never
raised by the source) plus the two runtime errors the source can actually
raise (`valueError` from the scoring call's empty-matrix validation,
`indexError` from out-of-range metadata indexing). -/
inductive RecErr where
  | invalidQuery
  | storeNotLoaded
  | corruptStore
  | valueError
  | indexError
deriving DecidableEq

/-- The scoring call
`cosine_similarity(query_embedding, embeddings)[0]` with its input
validation: sklearn's `check_pairwise_arrays` runs `check_array` with
`ensure_min_samples = 1`, which raises `ValueError` when the stored
matrix has zero rows; otherwise the call returns one score per stored
row. -/
def cosineScores {α : Type} [LinearOrderedField α]
    (sim : List α → List α → α) (qv : List α) (emb : List (List α)) :
    Except RecErr (List α) :=
  if emb.isEmpty then Except.error RecErr.valueError
  else Except.ok (emb.map (fun row => sim qv row))

/-- The selection loop with Python list indexing made explicit:
`metadata[idx]` raises when `idx` is out of range for the metadata list. -/
def selectLoopExc {α : Type} [LinearOrderedField α] [FloorRing α]
    (meta : List Meta) (scores : List α) (f : Option String) :
    Int → List Nat → Except RecErr (List (ResultRec α))
  | _, [] => .ok []
  | k, i :: rest =>
    if hi : i < meta.length then
      if keepRecord f (meta.get ⟨i, hi⟩) then
        if k ≤ 1 then .ok [mkResult (meta.get ⟨i, hi⟩) (scores.getD i 0)]
        else (selectLoopExc meta scores f (k - 1) rest).map
          (fun l => mkResult (meta.get ⟨i, hi⟩) (scores.getD i 0) :: l)
      else selectLoopExc meta scores f k rest
    else .error .indexError

/-- `recommend_faculty` with its possible runtime failures surfaced: the
scoring call's empty-matrix `ValueError`, then the selection loop over the
ranked indices with Python list indexing explicit. -/
def recommendExc {α : Type} [LinearOrderedField α] [FloorRing α]
    (sim : List α → List α → α) (q : String) (emb : List (List α))
    (meta : List Meta) (model : String → List α) (top_k : Int)
    (faculty_type : Option String) : Except RecErr (List (ResultRec α)) :=
  match cosineScores sim (codeQueryVector model q) emb with
  | Except.error e => Except.error e
  | Except.ok scores => selectLoopExc meta scores faculty_type top_k (rankedIndices scores)

/-! ## Store loading (`load_embeddings`, `load_metadata`) -/

/-- Raw metadata record as returned by `json.load`: an untyped field map. -/
abbrev RawMeta := List (String × String)

/-- Store loading as the source performs it: `load_embeddings` is
`np.load(path)` and `load_metadata` is `json.load(f)`; both return the
file contents as they are, with no length or required-field validation. -/
def load_store {α : Type} (emb : List (List α)) (meta : List RawMeta) :
    Except RecErr (List (List α) × List RawMeta) :=
  Except.ok (emb, meta)

/-! ## Store construction (`build_embeddings.py`) -/

/-- The metadata dict appended per usable record in
`build_embeddings.main`. -/
def mkMeta (r : CorpusRecord) : Meta :=
  ⟨r.id, r.name, r.email, r.link, r.faculty_type, r.text⟩

/-- The filtering loop of `build_embeddings.main`: walk the corpus, skip
records whose free-text field is empty, and collect the text list and the
metadata list in lockstep. -/
def collectUsable : List CorpusRecord → List String × List Meta
  | [] => ([], [])
  | r :: rest =>
    let p := collectUsable rest
    if r.text = "" then p else (r.text :: p.1, mkMeta r :: p.2)

/-- The store produced by `build_embeddings.main`: embeddings are the
encoder applied to each collected text, metadata is the collected
metadata list. -/
def buildStore {α : Type} (model : String → List α) (data : List CorpusRecord) :
    List (List α) × List Meta :=
  ((collectUsable data).1.map model, (collectUsable data).2)

/-! ## Query-vector construction following the specification's words -/

/-- Modelled from the spec, for comparison with the source: the augmented
query set — on a query whose whitespace-normalized form has at most 2
tokens, the original text plus the four templated variants; otherwise the
original text alone. -/
def specAugmentedSet (q : String) : List String :=
  if (pySplit q).length ≤ 2 then
    [q, q ++ " research", q ++ " in computer science",
     q ++ " academic research", q ++ " field of study"]
  else [q]

/-- Element-wise vector sum. -/
def vecAdd {α : Type} [LinearOrderedField α] (u v : List α) : List α :=
  List.zipWith (fun a b => a + b) u v

/-- Scalar multiple of a vector. -/
def vecScale {α : Type} [LinearOrderedField α] (c : α) (v : List α) : List α :=
  v.map (fun x => c * x)

/-- Element-wise arithmetic mean of a list of vectors. -/
def vecMean {α : Type} [LinearOrderedField α] : List (List α) → List α
  | [] => []
  | v :: vs => vecScale (1 / (vs.length + 1 : α)) (vs.foldl vecAdd v)

/-- Modelled from the spec, for comparison with the source: the query
vector as the element-wise arithmetic mean of the (unit-normalized)
embeddings of the augmented query set. -/
def specQueryVector {α : Type} [LinearOrderedField α]
    (model : String → List α) (q : String) : List α :=
  vecMean ((specAugmentedSet q).map model)

/-! ## Concrete fixtures for the executable instances -/

/-- Example metadata record (category `"faculty"`, store index 0 in the
two-record fixtures). -/
def metaA : Meta := ⟨"a", "Alice", "al@x", "http://a", "faculty", "text a"⟩

/-- Example metadata record (category `"faculty"`, store index 1 in the
two-record fixtures). -/
def metaB : Meta := ⟨"b", "Bob", "bo@x", "http://b", "faculty", "text b"⟩

/-- Example metadata record with category `"adjunct"`. -/
def metaAdj : Meta := ⟨"7", "Ada", "a@x", "http://x", "adjunct", "systems research"⟩

/-- An encoder distinguishing the expanded query `"machine learning"` from
every other string. -/
def Mex : String → List ℚ := fun s => if s = "machine learning" then [1, 0] else [0, 1]

/-- A second encoder agreeing with `Mex` on `"machine learning"` only. -/
def MexB : String → List ℚ := fun s => if s = "machine learning" then [1, 0] else [9, 9]

/-- An encoder mapping a text to the one-entry vector of its length. -/
def Mlen : String → List ℚ := fun s => [(s.length : ℚ)]

/-- Example corpus: one usable record and one empty-text record. -/
def corpusEx : List CorpusRecord :=
  [⟨"1", "Alice", "al@x", "http://a", "faculty", "alpha beta"⟩,
   ⟨"2", "Bob", "bo@x", "http://b", "adjunct", ""⟩]

/-! ## General lemmas about the ranking -/

lemma rankRel_total {α : Type} [LinearOrderedField α] (s : List α) :
    ∀ i j, rankRel s i j ∨ rankRel s j i := by
  intro i j
  rcases lt_trichotomy (s.getD i 0) (s.getD j 0) with h | h | h
  · exact Or.inl (Or.inl h)
  · rcases Nat.le_total i j with hij | hij
    · exact Or.inl (Or.inr ⟨h, hij⟩)
    · exact Or.inr (Or.inr ⟨h.symm, hij⟩)
  · exact Or.inr (Or.inl h)

lemma rankRel_trans {α : Type} [LinearOrderedField α] (s : List α) :
    ∀ i j k, rankRel s i j → rankRel s j k → rankRel s i k := by
  intro i j k hij hjk
  rcases hij with h1 | ⟨e1, l1⟩
  · rcases hjk with h2 | ⟨e2, _⟩
    · exact Or.inl (h1.trans h2)
    · exact Or.inl (lt_of_lt_of_eq h1 e2)
  · rcases hjk with h2 | ⟨e2, l2⟩
    · exact Or.inl (lt_of_eq_of_lt e1 h2)
    · exact Or.inr ⟨e1.trans e2, l1.trans l2⟩

lemma sorted_insertionSort_rankRel {α : Type} [LinearOrderedField α] (s : List α) :
    (List.insertionSort (rankRel s) (List.range s.length)).Sorted (rankRel s) := by
  haveI : IsTotal Nat (rankRel s) := ⟨rankRel_total s⟩
  haveI : IsTrans Nat (rankRel s) := ⟨rankRel_trans s⟩
  exact List.sorted_insertionSort _ _

lemma rankedIndices_pairwise {α : Type} [LinearOrderedField α] (s : List α) :
    (rankedIndices s).Pairwise (fun a b => rankRel s b a) := by
  rw [rankedIndices, List.pairwise_reverse]
  exact sorted_insertionSort_rankRel s

lemma mem_rankedIndices {α : Type} [LinearOrderedField α] (s : List α) (i : Nat) :
    i ∈ rankedIndices s ↔ i < s.length := by
  rw [rankedIndices, List.mem_reverse, List.mem_insertionSort, List.mem_range]

lemma indexOf_lt_of_pairwise {R : Nat → Nat → Prop} :
    ∀ (l : List Nat), l.Pairwise R → ∀ a b, a ∈ l → b ∈ l → ¬ R b a → a ≠ b →
      l.indexOf a < l.indexOf b := by
  intro l
  induction l with
  | nil => intro _ a b ha; exact absurd ha (List.not_mem_nil a)
  | cons c t ih =>
    intro hp a b ha hb hR hne
    rcases List.pairwise_cons.mp hp with ⟨hc, ht⟩
    by_cases hac : a = c
    · subst hac
      rw [List.indexOf_cons_self]
      have hbc : a ≠ b := hne
      rw [List.indexOf_cons_ne t (fun h => hbc h)]
      exact Nat.succ_pos _
    · have hat : a ∈ t := by
        rcases List.mem_cons.mp ha with h | h
        · exact absurd h hac
        · exact h
      by_cases hbc : b = c
      · subst hbc
        exact absurd (hc a hat) hR
      · have hbt : b ∈ t := by
          rcases List.mem_cons.mp hb with h | h
          · exact absurd h hbc
          · exact h
        rw [List.indexOf_cons_ne t (fun h => hac h.symm),
          List.indexOf_cons_ne t (fun h => hbc h.symm)]
        exact Nat.succ_lt_succ (ih ht a b hat hbt hR hne)

lemma rankedIndices_before {α : Type} [LinearOrderedField α] (s : List α) {i j : Nat}
    (hi : i < s.length) (hj : j < s.length)
    (h : ¬ rankRel s j i) (hne : j ≠ i) :
    (rankedIndices s).indexOf j < (rankedIndices s).indexOf i :=
  indexOf_lt_of_pairwise _ (rankedIndices_pairwise s) j i
    ((mem_rankedIndices s j).mpr hj) ((mem_rankedIndices s i).mpr hi) h hne

lemma rankedIndices_single {α : Type} [LinearOrderedField α] (c : α) :
    rankedIndices [c] = [0] := by
  simp [rankedIndices, List.insertionSort]

lemma rankedIndices_pair {α : Type} [LinearOrderedField α] (c : α) :
    rankedIndices [c, c] = [1, 0] := by
  have h : rankRel [c, c] 0 1 := Or.inr ⟨rfl, by omega⟩
  simp [rankedIndices, List.insertionSort, List.orderedInsert, if_pos h, List.range]

/-! ## General lemmas about the selection loop -/

lemma selectLoop_cons_keep {α : Type} [LinearOrderedField α] [FloorRing α]
    {meta : List Meta} {scores : List α} {f : Option String} {i : Nat}
    (h : keepRecord f (meta.getD i default) = true) (k : Int) (rest : List Nat) :
    selectLoop meta scores f k (i :: rest)
      = if k ≤ 1 then [mkResult (meta.getD i default) (scores.getD i 0)]
        else mkResult (meta.getD i default) (scores.getD i 0) ::
          selectLoop meta scores f (k - 1) rest := by
  rw [selectLoop, if_pos h]

lemma selectLoop_cons_skip {α : Type} [LinearOrderedField α] [FloorRing α]
    {meta : List Meta} {scores : List α} {f : Option String} {i : Nat}
    (h : keepRecord f (meta.getD i default) = false) (k : Int) (rest : List Nat) :
    selectLoop meta scores f k (i :: rest) = selectLoop meta scores f k rest := by
  rw [selectLoop, if_neg (by simp only [h]; decide)]

lemma selectLoop_mem {α : Type} [LinearOrderedField α] [FloorRing α]
    (meta : List Meta) (scores : List α) (f : Option String) :
    ∀ (l : List Nat) (k : Int) (r : ResultRec α), r ∈ selectLoop meta scores f k l →
      ∃ i ∈ l, keepRecord f (meta.getD i default) = true
        ∧ r = mkResult (meta.getD i default) (scores.getD i 0) := by
  intro l
  induction l with
  | nil => intro k r hr; simp [selectLoop] at hr
  | cons i rest ih =>
    intro k r hr
    cases hkeep : keepRecord f (meta.getD i default) with
    | false =>
      rw [selectLoop_cons_skip hkeep] at hr
      rcases ih k r hr with ⟨i', hi', hkeep', hr'⟩
      exact ⟨i', List.mem_cons_of_mem i hi', hkeep', hr'⟩
    | true =>
      rw [selectLoop_cons_keep hkeep] at hr
      by_cases hk1 : k ≤ 1
      · rw [if_pos hk1] at hr
        rcases List.mem_singleton.mp hr with rfl
        exact ⟨i, List.mem_cons_self i rest, hkeep, rfl⟩
      · rw [if_neg hk1] at hr
        rcases List.mem_cons.mp hr with rfl | hmem
        · exact ⟨i, List.mem_cons_self i rest, hkeep, rfl⟩
        · rcases ih (k - 1) r hmem with ⟨i', hi', hkeep', hr'⟩
          exact ⟨i', List.mem_cons_of_mem i hi', hkeep', hr'⟩

lemma selectLoop_length {α : Type} [LinearOrderedField α] [FloorRing α]
    (meta : List Meta) (scores : List α) (f : Option String) :
    ∀ (l : List Nat) (k : Int), 1 ≤ k →
      (selectLoop meta scores f k l).length
        = min k.toNat (l.countP (fun i => keepRecord f (meta.getD i default))) := by
  intro l
  induction l with
  | nil => intro k hk; simp [selectLoop]
  | cons i rest ih =>
    intro k hk
    cases hkeep : keepRecord f (meta.getD i default) with
    | false =>
      rw [selectLoop_cons_skip hkeep, ih k hk,
        List.countP_cons_of_neg _ _ (by simp only [hkeep]; decide)]
    | true =>
      rw [selectLoop_cons_keep hkeep,
        List.countP_cons_of_pos (fun j => keepRecord f (meta.getD j default)) rest hkeep]
      by_cases hk1 : k ≤ 1
      · rw [if_pos hk1]
        have h1 : k.toNat = 1 := by omega
        simp [h1]
      · rw [if_neg hk1, List.length_cons, ih (k - 1) (by omega)]
        omega

lemma countP_range_getD {β : Type} [Inhabited β] (p : β → Bool) :
    ∀ (l : List β),
      (List.range l.length).countP (fun i => p (l.getD i default)) = l.countP p := by
  intro l
  induction l with
  | nil => simp
  | cons a t ih =>
    rw [List.length_cons, List.range_succ_eq_map, List.countP_cons, List.countP_map,
      List.countP_cons]
    simp only [List.getD_cons_zero, List.getD_cons_succ, Function.comp_def]
    rw [ih]

lemma getD_map_lt {β γ : Type} (g : β → γ) (d : β) (d' : γ) :
    ∀ (l : List β) (i : Nat), i < l.length → (l.map g).getD i d' = g (l.getD i d) := by
  intro l
  induction l with
  | nil => intro i hi; simp at hi
  | cons a t ih =>
    intro i hi
    cases i with
    | zero => simp
    | succ n =>
      simp only [List.map_cons, List.getD_cons_succ]
      exact ih n (by simpa using hi)

lemma keepRecord_some_empty (m : Meta) : keepRecord (some "") m = keepRecord none m := by
  simp [keepRecord]

lemma selectLoop_some_empty {α : Type} [LinearOrderedField α] [FloorRing α]
    (meta : List Meta) (scores : List α) :
    ∀ (l : List Nat) (k : Int),
      selectLoop meta scores (some "") k l = selectLoop meta scores none k l := by
  intro l
  induction l with
  | nil => intro k; simp [selectLoop]
  | cons i rest ih =>
    intro k
    rw [selectLoop, selectLoop, keepRecord_some_empty, ih, ih]

lemma selectLoopExc_ok {α : Type} [LinearOrderedField α] [FloorRing α]
    (meta : List Meta) (scores : List α) (f : Option String) :
    ∀ (l : List Nat), (∀ i ∈ l, i < meta.length) → ∀ (k : Int),
      selectLoopExc meta scores f k l = Except.ok (selectLoop meta scores f k l) := by
  intro l
  induction l with
  | nil => intro _ k; simp [selectLoopExc, selectLoop]
  | cons i rest ih =>
    intro hb k
    have hi : i < meta.length := hb i (List.mem_cons_self i rest)
    have hrest : ∀ j ∈ rest, j < meta.length := fun j hj => hb j (List.mem_cons_of_mem i hj)
    have hget : meta.get ⟨i, hi⟩ = meta.getD i default := by
      rw [List.get_eq_getElem, List.getD_eq_getElem _ _ hi]
    rw [selectLoopExc, selectLoop, dif_pos hi, hget]
    cases hkeep : keepRecord f (meta.getD i default) with
    | false =>
      rw [if_neg (by decide), if_neg (by decide)]
      exact ih hrest k
    | true =>
      rw [if_pos rfl, if_pos rfl]
      by_cases hk1 : k ≤ 1
      · rw [if_pos hk1, if_pos hk1]
      · rw [if_neg hk1, if_neg hk1, ih hrest (k - 1)]
        rfl

lemma cosineScores_ok {α : Type} [LinearOrderedField α]
    (sim : List α → List α → α) (qv : List α) {emb : List (List α)}
    (hne : emb ≠ []) :
    cosineScores sim qv emb = Except.ok (emb.map (fun row => sim qv row)) := by
  rw [cosineScores, if_neg]
  simpa using hne

lemma recommendExc_eq_of_ne {α : Type} [LinearOrderedField α] [FloorRing α]
    (sim : List α → List α → α) (q : String) {emb : List (List α)}
    (meta : List Meta) (model : String → List α) (k : Int) (f : Option String)
    (hne : emb ≠ []) :
    recommendExc sim q emb meta model k f
      = selectLoopExc meta (queryScores sim q emb model) f k
          (rankedIndices (queryScores sim q emb model)) := by
  rw [recommendExc, cosineScores_ok sim _ hne]
  rfl

lemma recommendExc_ok_of_aligned {α : Type} [LinearOrderedField α] [FloorRing α]
    (sim : List α → List α → α) (q : String) {emb : List (List α)}
    (meta : List Meta) (model : String → List α) (k : Int) (f : Option String)
    (hne : emb ≠ []) (halign : emb.length = meta.length) :
    recommendExc sim q emb meta model k f
      = Except.ok (recommend_faculty sim q emb meta model k f) := by
  rw [recommendExc_eq_of_ne sim q meta model k f hne, recommend_faculty]
  apply selectLoopExc_ok
  intro i hi
  have hlt := (mem_rankedIndices _ i).mp hi
  rw [queryScores, List.length_map, halign] at hlt
  exact hlt

lemma selectLoopExc_error_is_index {α : Type} [LinearOrderedField α] [FloorRing α]
    (meta : List Meta) (scores : List α) (f : Option String) :
    ∀ (l : List Nat) (k : Int) (e : RecErr),
      selectLoopExc meta scores f k l = Except.error e → e = RecErr.indexError := by
  intro l
  induction l with
  | nil => intro k e h; simp [selectLoopExc] at h
  | cons i rest ih =>
    intro k e h
    rw [selectLoopExc] at h
    by_cases hi : i < meta.length
    · rw [dif_pos hi] at h
      by_cases hkeep : keepRecord f (meta.get ⟨i, hi⟩) = true
      · rw [if_pos hkeep] at h
        by_cases hk1 : k ≤ 1
        · rw [if_pos hk1] at h
          exact absurd h (by simp)
        · rw [if_neg hk1] at h
          cases hrec : selectLoopExc meta scores f (k - 1) rest with
          | error e2 =>
            rw [hrec] at h
            have he : e2 = e := by simpa [Except.map] using h
            exact he ▸ ih (k - 1) e2 hrec
          | ok l2 =>
            rw [hrec] at h
            simp [Except.map] at h
      · rw [if_neg hkeep] at h
        exact ih k e h
    · rw [dif_neg hi] at h
      have he : RecErr.indexError = e := by simpa using h
      exact he.symm

/-! ## General lemmas about cosine similarity -/

lemma sqNorm_nonneg (v : List ℝ) : 0 ≤ sqNorm v := by
  induction v with
  | nil => simp [sqNorm]
  | cons a t ih =>
    have : sqNorm (a :: t) = a * a + sqNorm t := by simp [sqNorm]
    rw [this]
    exact add_nonneg (mul_self_nonneg a) ih

lemma sqNorm_zero_entries (v : List ℝ) (h : sqNorm v = 0) : ∀ x ∈ v, x = 0 := by
  induction v with
  | nil => simp
  | cons a t ih =>
    have h1 : a * a + sqNorm t = 0 := by simpa [sqNorm] using h
    have ha : a * a = 0 := by nlinarith [mul_self_nonneg a, sqNorm_nonneg t]
    have ht : sqNorm t = 0 := by nlinarith [mul_self_nonneg a, sqNorm_nonneg t]
    intro x hx
    rcases List.mem_cons.mp hx with rfl | hxt
    · exact mul_self_eq_zero.mp ha
    · exact ih ht x hxt

lemma dotp_zero_right (w v : List ℝ) (h : ∀ x ∈ v, x = 0) : dotp w v = 0 := by
  induction w generalizing v with
  | nil => simp [dotp]
  | cons a t ih =>
    cases v with
    | nil => simp [dotp]
    | cons b s =>
      have hb : b = 0 := h b (List.mem_cons_self b s)
      have hs : ∀ x ∈ s, x = 0 := fun x hx => h x (List.mem_cons_of_mem b hx)
      have : dotp (a :: t) (b :: s) = a * b + dotp t s := by simp [dotp]
      rw [this, hb, ih s hs, mul_zero, add_zero]

lemma normalizeRow_of_sqNorm_zero (v : List ℝ) (h : sqNorm v = 0) :
    normalizeRow v = v := by
  rw [normalizeRow, if_pos (by rw [nrm, h, Real.sqrt_zero])]

lemma cosineSim_zero_right (u v : List ℝ) (h : sqNorm v = 0) : cosineSim u v = 0 := by
  rw [cosineSim, normalizeRow_of_sqNorm_zero v h]
  exact dotp_zero_right _ _ (sqNorm_zero_entries v h)

lemma cosineSim_unit : cosineSim [(1 : ℝ), 0] [1, 0] = 1 := by
  have h2 : nrm [(1 : ℝ), 0] = 1 := by rw [nrm]; norm_num [sqNorm]
  rw [cosineSim, normalizeRow, h2]
  norm_num [dotp]

/-! ## Evaluation of the pipeline on the concrete fixtures -/

lemma expand_empty : expand_acronyms "" = "" := by decide

lemma expand_plain_q : expand_acronyms "q" = "q" := by decide

lemma expand_ml : expand_acronyms "ml" = "machine learning" := by decide

lemma queryScores_pair :
    queryScores cosineSim "q" [[(1 : ℝ), 0], [1, 0]] (fun _ => [1, 0]) = [1, 1] := by
  simp [queryScores, codeQueryVector, embed_query, cosineSim_unit]

lemma recommend_pair_eval :
    recommend_faculty cosineSim "q" [[(1 : ℝ), 0], [1, 0]] [metaA, metaB]
        (fun _ => [1, 0]) 5 none
      = [mkResult metaB 1, mkResult metaA 1] := by
  rw [recommend_faculty, queryScores_pair, rankedIndices_pair]
  norm_num [selectLoop, keepRecord]

lemma queryScores_single_empty :
    queryScores cosineSim "" [[(1 : ℝ), 0]] (fun _ => [1, 0]) = [1] := by
  simp [queryScores, codeQueryVector, embed_query, cosineSim_unit]

lemma recommend_adj_eval :
    recommend_faculty (α := ℚ) dotp "x" [[1]] [metaAdj] (fun _ => [1]) 1 (some "adjunct")
      = [mkResult metaAdj 1] := by
  have h1 : queryScores (α := ℚ) dotp "x" [[1]] (fun _ => [1]) = [1] := by
    norm_num [queryScores, codeQueryVector, dotp, embed_query]
  rw [recommend_faculty, h1, rankedIndices_single]
  simp [selectLoop, keepRecord, metaAdj]

/-! ## Claim theorems -/

/-- C4: for every store, query and supplied non-empty category filter
value, every record in the returned result list has a stored category
exactly (case-sensitively) equal to the filter value; non-matching records
are skipped by the post-scoring selection loop. -/
theorem filter_membership_exact {α : Type} [LinearOrderedField α] [FloorRing α]
    (sim : List α → List α → α) (q : String) (emb : List (List α))
    (meta : List Meta) (model : String → List α) (k : Int) (s : String)
    (hs : s ≠ "") :
    ∀ r ∈ recommend_faculty sim q emb meta model k (some s),
      r.lookup "faculty_type" = some (Val.str s) := by
  intro r hr
  rw [recommend_faculty] at hr
  rcases selectLoop_mem meta _ (some s) _ k r hr with ⟨i, _, hkeep, rfl⟩
  have hft : (meta.getD i default).faculty_type = s := by
    simpa [keepRecord, hs] using hkeep
  rw [show (mkResult (meta.getD i default)
      ((queryScores sim q emb model).getD i 0)).lookup "faculty_type"
    = some (Val.str (meta.getD i default).faculty_type) from rfl, hft]

/-- Witness for C4 at a concrete store and filter. -/
theorem filter_membership_exact_witness :
    ((recommend_faculty (α := ℚ) dotp "x" [[1]] [metaAdj] (fun _ => [1]) 1
        (some "adjunct")).headD []).lookup "faculty_type"
      = some (Val.str "adjunct") :=
  filter_membership_exact dotp "x" [[1]] [metaAdj] (fun _ => [1]) 1 "adjunct"
    (by decide) _ (by rw [recommend_adj_eval]; simp)

/-- C5 counterexample: on the empty store the recommend call does not
return the claimed empty result list — the scoring call's input validation
raises the library's `ValueError` on a zero-row embedding matrix. -/
theorem empty_store_raises_value_error :
    recommendExc (α := ℚ) dotp "x" [] [] (fun _ => [1]) 5 none
      = Except.error RecErr.valueError := rfl

/-- C5 amended: for every non-empty aligned store, query, positive
`top_k` and optional filter, the call returns (no error) and the result
length is `min top_k (number of stored records matching the filter)` — in
particular a filter matching nothing gives `[]` without error; the empty
store, however, raises the scoring call's `ValueError` instead of
returning an empty result. -/
theorem result_length_min_topk_matching {α : Type} [LinearOrderedField α] [FloorRing α]
    (sim : List α → List α → α) (q : String) (emb : List (List α))
    (meta : List Meta) (model : String → List α) (k : Int) (f : Option String)
    (hne : emb ≠ []) (halign : emb.length = meta.length) (hk : 1 ≤ k) :
    ∃ l, recommendExc sim q emb meta model k f = Except.ok l
      ∧ l.length = min k.toNat (meta.countP (keepRecord f)) := by
  refine ⟨recommend_faculty sim q emb meta model k f,
    recommendExc_ok_of_aligned sim q meta model k f hne halign, ?_⟩
  rw [recommend_faculty, selectLoop_length meta _ f _ k hk]
  congr 1
  have hlen : (queryScores sim q emb model).length = meta.length := by
    rw [queryScores, List.length_map, halign]
  have hperm : (rankedIndices (queryScores sim q emb model)).Perm
      (List.range (queryScores sim q emb model).length) := by
    rw [rankedIndices]
    exact (List.reverse_perm _).trans (List.perm_insertionSort _ _)
  rw [hperm.countP_eq, hlen, countP_range_getD]

/-- Witness for the amended C5 at a concrete store. -/
theorem result_length_min_topk_matching_witness :
    ∃ l, recommendExc (α := ℚ) dotp "x" [[1], [2]] [metaA, metaB]
          (fun _ => [1]) 5 none = Except.ok l
      ∧ l.length = min (5 : Int).toNat ([metaA, metaB].countP (keepRecord none)) :=
  result_length_min_topk_matching dotp "x" [[1], [2]] [metaA, metaB]
    (fun _ => [1]) 5 none (by decide) (by decide) (by decide)

/-- C10: calling recommend with the category filter set to the empty
string returns exactly the same result list as calling it with no filter,
because the empty-string filter is falsy in the skip test. -/
theorem empty_string_filter_eq_no_filter {α : Type} [LinearOrderedField α] [FloorRing α]
    (sim : List α → List α → α) (q : String) (emb : List (List α))
    (meta : List Meta) (model : String → List α) (k : Int) :
    recommend_faculty sim q emb meta model k (some "")
      = recommend_faculty sim q emb meta model k none := by
  rw [recommend_faculty, recommend_faculty]
  exact selectLoop_some_empty meta _ _ k

/-- C7 counterexample: with a loaded one-record store, the query that is
empty after normalization returns an ordinary result list, not an
`InvalidQueryError`, contradicting the claimed failure condition. -/
theorem empty_query_returns_ok :
    recommendExc cosineSim "" [[(1 : ℝ), 0]] [metaA] (fun _ => [1, 0]) 1 none
      = Except.ok [mkResult metaA 1] := by
  rw [recommendExc_eq_of_ne cosineSim "" [metaA] (fun _ => [1, 0]) 1 none
      (List.cons_ne_nil _ _),
    queryScores_single_empty, rankedIndices_single]
  simp [selectLoopExc, keepRecord]

/-- C7 amended: the core recommend operation never fails with
`InvalidQueryError` for any input whatsoever (no such validation exists in
the source), and on every non-empty aligned store it returns a result list
for every query — including the empty and whitespace-only ones — and for
every `top_k`, including non-positive values.  (On the empty store the
scoring call raises the library's `ValueError` — still not an
`InvalidQueryError`.) -/
theorem recommend_never_invalid_query_error {α : Type} [LinearOrderedField α] [FloorRing α]
    (sim : List α → List α → α) (q : String) (emb : List (List α))
    (meta : List Meta) (model : String → List α) (k : Int) (f : Option String) :
    recommendExc sim q emb meta model k f ≠ Except.error RecErr.invalidQuery
    ∧ (emb ≠ [] → emb.length = meta.length →
        recommendExc sim q emb meta model k f
          = Except.ok (recommend_faculty sim q emb meta model k f)) := by
  constructor
  · intro h
    by_cases hne : emb = []
    · subst hne
      simp [recommendExc, cosineScores] at h
    · rw [recommendExc_eq_of_ne sim q meta model k f hne] at h
      exact absurd (selectLoopExc_error_is_index _ _ _ _ _ _ h) (by decide)
  · intro hne halign
    exact recommendExc_ok_of_aligned sim q meta model k f hne halign

/-- Witness for the amended C7 at an empty query and `top_k = 0`. -/
theorem recommend_never_invalid_query_error_witness :
    recommendExc (α := ℚ) dotp "" [[1]] [metaA] (fun _ => [1]) 0 none
        ≠ Except.error RecErr.invalidQuery
    ∧ recommendExc (α := ℚ) dotp "" [[1]] [metaA] (fun _ => [1]) 0 none
        = Except.ok (recommend_faculty dotp "" [[1]] [metaA] (fun _ => [1]) 0 none) :=
  ⟨(recommend_never_invalid_query_error dotp "" [[1]] [metaA]
      (fun _ => [1]) 0 none).1,
   (recommend_never_invalid_query_error dotp "" [[1]] [metaA]
      (fun _ => [1]) 0 none).2 (by decide) (by decide)⟩

/-- C8 counterexample: an embedding matrix and a metadata sequence of
different lengths, whose single record also lacks the required `name`
field, load successfully — `load_store` performs no validation and raises
no `CorruptStoreError`. -/
theorem mismatched_store_loads_ok :
    ([[1, 0], [0, 1]] : List (List ℚ)).length ≠ ([[("id", "x")]] : List RawMeta).length
    ∧ (([("id", "x")] : RawMeta).lookup "name") = none
    ∧ load_store ([[1, 0], [0, 1]] : List (List ℚ)) [[("id", "x")]]
        = Except.ok ([[1, 0], [0, 1]], [[("id", "x")]]) :=
  ⟨by decide, by decide, rfl⟩

/-- C8 amended: loading performs no validation at all and never fails —
every matrix/metadata pair, aligned or not, well-formed or not, is
returned as-is; no `CorruptStoreError` (nor any other error) is possible
at load time, so malformed stores are detected only later, at use time. -/
theorem load_store_never_fails {α : Type} (emb : List (List α)) (meta : List RawMeta) :
    load_store emb meta = Except.ok (emb, meta)
    ∧ ∀ e : RecErr, load_store emb meta ≠ Except.error e :=
  ⟨rfl, fun e h => by simp [load_store] at h⟩

/-- Witness for the amended C8 at a concrete pair. -/
theorem load_store_never_fails_witness :
    load_store ([[1]] : List (List ℚ)) [] = Except.ok ([[1]], [])
    ∧ load_store ([[1]] : List (List ℚ)) [] ≠ Except.error RecErr.corruptStore :=
  ⟨(load_store_never_fails [[1]] []).1,
   (load_store_never_fails [[1]] []).2 RecErr.corruptStore⟩

/-- C9: a stored record whose vector has zero L2 norm is scored 0 (the
zero norm is guarded, no error, no NaN), and it never ranks above a record
with strictly positive similarity: in the descending ranking, the
positive-scored index `j` precedes the zero-vector index `i`. -/
theorem zero_norm_scores_zero_and_ranks_below_positive
    (u : List ℝ) (emb : List (List ℝ)) (i j : Nat)
    (hi : i < emb.length) (hj : j < emb.length)
    (hz : sqNorm (emb.getD i []) = 0)
    (hp : 0 < cosineSim u (emb.getD j [])) :
    cosineSim u (emb.getD i []) = 0
    ∧ (rankedIndices (emb.map (cosineSim u))).indexOf j
        < (rankedIndices (emb.map (cosineSim u))).indexOf i := by
  have h0 : cosineSim u (emb.getD i []) = 0 := cosineSim_zero_right u _ hz
  refine ⟨h0, ?_⟩
  have hsl : (emb.map (cosineSim u)).length = emb.length := List.length_map _ _
  have hgi : (emb.map (cosineSim u)).getD i 0 = cosineSim u (emb.getD i []) :=
    getD_map_lt (cosineSim u) [] 0 emb i hi
  have hgj : (emb.map (cosineSim u)).getD j 0 = cosineSim u (emb.getD j []) :=
    getD_map_lt (cosineSim u) [] 0 emb j hj
  apply rankedIndices_before (emb.map (cosineSim u)) (by omega) (by omega)
  · intro hR
    rcases hR with hlt | ⟨he, _⟩
    · rw [hgi, hgj, h0] at hlt
      linarith
    · rw [hgi, hgj, h0] at he
      rw [he] at hp
      exact lt_irrefl 0 hp
  · intro hji
    rw [hji] at hp
    rw [h0] at hp
    exact lt_irrefl 0 hp

/-- Witness for C9: a two-record store with one all-zero vector. -/
theorem zero_norm_scores_zero_and_ranks_below_positive_witness :
    cosineSim [1, 0] ([[(0 : ℝ), 0], [1, 0]].getD 0 []) = 0
    ∧ (rankedIndices ([[(0 : ℝ), 0], [1, 0]].map (cosineSim [1, 0]))).indexOf 1
        < (rankedIndices ([[(0 : ℝ), 0], [1, 0]].map (cosineSim [1, 0]))).indexOf 0 :=
  zero_norm_scores_zero_and_ranks_below_positive [1, 0] [[0, 0], [1, 0]] 0 1
    (by decide) (by decide)
    (by simp [sqNorm])
    (by rw [show ([[(0 : ℝ), 0], [1, 0]].getD 1 []) = [1, 0] from rfl, cosineSim_unit]
        exact one_pos)

/-- C1 counterexample: for the one-token query `"ml"` the query vector the
code uses is the single embedding of the acronym-expanded text
`"machine learning"`, not the element-wise mean of the embeddings of the
original text and the four templated variants required by the claim. -/
theorem codeQueryVector_ne_specQueryVector :
    codeQueryVector Mex "ml" ≠ specQueryVector Mex "ml" := by
  have h1 : codeQueryVector Mex "ml" = [1, 0] := by
    rw [codeQueryVector, embed_query, expand_ml]
    simp [Mex]
  have h2 : specQueryVector Mex "ml" = [0, 1] := by
    have e1 : Mex "ml" = [0, 1] := by decide
    have e2 : Mex "ml research" = [0, 1] := by decide
    have e3 : Mex "ml in computer science" = [0, 1] := by decide
    have e4 : Mex "ml academic research" = [0, 1] := by decide
    have e5 : Mex "ml field of study" = [0, 1] := by decide
    rw [specQueryVector,
      show specAugmentedSet "ml"
        = ["ml", "ml research", "ml in computer science",
           "ml academic research", "ml field of study"] from by decide,
      List.map_cons, List.map_cons, List.map_cons, List.map_cons, List.map_cons,
      List.map_nil, e1, e2, e3, e4, e5]
    norm_num [vecMean, vecAdd, vecScale]
  rw [h1, h2]
  decide

/-- C1 amended: for every query, regardless of token count, the query
vector used for ranking is the single embedding of the acronym-expanded
(lowercased, whitespace-normalized) query text — no templated variants are
embedded and no averaging occurs, so the output depends on the encoder
only through its value at that one expanded string. -/
theorem recommend_depends_only_on_expanded_embedding
    (M1 M2 : String → List ℚ) (q : String)
    (h : M1 (expand_acronyms q) = M2 (expand_acronyms q))
    (sim : List ℚ → List ℚ → ℚ) (emb : List (List ℚ)) (meta : List Meta)
    (k : Int) (f : Option String) :
    recommend_faculty sim q emb meta M1 k f
      = recommend_faculty sim q emb meta M2 k f := by
  have hq : queryScores sim q emb M1 = queryScores sim q emb M2 := by
    rw [queryScores, queryScores, codeQueryVector, codeQueryVector,
      embed_query, embed_query, h]
  rw [recommend_faculty, recommend_faculty, hq]

/-- Witness for the amended C1: two encoders that agree on the expanded
string `"machine learning"` but nowhere else give identical output. -/
theorem recommend_depends_only_on_expanded_embedding_witness :
    recommend_faculty dotp "ml" [[1, 0]] [metaA] Mex 1 none
      = recommend_faculty dotp "ml" [[1, 0]] [metaA] MexB 1 none :=
  recommend_depends_only_on_expanded_embedding Mex MexB "ml"
    (by rw [expand_ml]; simp [Mex, MexB]) dotp [[1, 0]] [metaA] 1 none

/-- C2: the store built from any corpus is aligned — the embedding list
and the metadata list have equal length, row `i` is the encoder applied to
exactly the text of metadata record `i`, and the metadata is precisely the
corpus filtered to records with non-empty text (empty-text records are
excluded from both sides). -/
lemma collectUsable_fst (data : List CorpusRecord) :
    (collectUsable data).1
      = (data.filter (fun r => r.text ≠ "")).map (fun r => r.text) := by
  induction data with
  | nil => simp [collectUsable]
  | cons r rest ih =>
    by_cases h : r.text = ""
    · simp [collectUsable, List.filter_cons, h, ih]
    · simp [collectUsable, List.filter_cons, h, ih]

lemma collectUsable_snd (data : List CorpusRecord) :
    (collectUsable data).2
      = (data.filter (fun r => r.text ≠ "")).map mkMeta := by
  induction data with
  | nil => simp [collectUsable]
  | cons r rest ih =>
    by_cases h : r.text = ""
    · simp [collectUsable, List.filter_cons, h, ih]
    · simp [collectUsable, List.filter_cons, h, ih]

theorem buildStore_alignment_invariant {β : Type}
    (model : String → List β) (data : List CorpusRecord) :
    (buildStore model data).1.length = (buildStore model data).2.length
    ∧ (∀ i, i < (buildStore model data).2.length →
        (buildStore model data).1.getD i []
          = model (((buildStore model data).2.getD i default).text))
    ∧ (buildStore model data).2
        = (data.filter (fun r => r.text ≠ "")).map mkMeta := by
  have hfst := collectUsable_fst data
  have hsnd := collectUsable_snd data
  refine ⟨?_, ?_, ?_⟩
  · rw [buildStore, hfst, hsnd]
    simp
  · intro i hi
    rw [buildStore, hfst, hsnd]
    rw [buildStore, hsnd] at hi
    simp only [List.length_map] at hi
    rw [List.map_map, getD_map_lt (model ∘ fun r => r.text) default [] _ i hi,
      getD_map_lt mkMeta default default _ i hi]
    rfl
  · rw [buildStore, hsnd]

/-- Witness for C2 on a corpus with one usable and one empty-text
record. -/
theorem buildStore_alignment_invariant_witness :
    0 < (buildStore Mlen corpusEx).2.length
    ∧ (buildStore Mlen corpusEx).1.getD 0 []
        = Mlen (((buildStore Mlen corpusEx).2.getD 0 default).text) :=
  ⟨by decide, (buildStore_alignment_invariant Mlen corpusEx).2.1 0 (by decide)⟩

/-- C3 counterexample: two records with identical embedding rows receive
exactly equal cosine scores, yet the output lists the record with store
index 1 (id `"b"`) before the record with store index 0 (id `"a"`) — the
lower index does not come first on ties. -/
theorem tie_lower_index_not_first :
    recommend_faculty cosineSim "q" [[(1 : ℝ), 0], [1, 0]] [metaA, metaB]
        (fun _ => [1, 0]) 5 none
      = [mkResult metaB 1, mkResult metaA 1]
    ∧ mkResult metaB (1 : ℝ) ≠ mkResult metaA 1 := by
  refine ⟨recommend_pair_eval, ?_⟩
  simp [mkResult, metaA, metaB]

/-- C3 amended: the ranking is a permutation of the store indices sorted
by descending score; the program fixes no tie order in general (numpy's
default argsort is not stable), so the claimed lower-index-first rule is
false, and within numpy's insertion-sort regime (at most 16 scores), where
`np.argsort` is exactly the stable ascending insertion sort modelled by
`rankedIndices`, two records with exactly equal scores come out with the
HIGHER original store index first. -/
theorem rankedIndices_sorted_tie_higher_index_first {α : Type} [LinearOrderedField α]
    (scores : List α) (i j : Nat) (hj : j < scores.length) (hij : i < j)
    (heq : scores.getD i 0 = scores.getD j 0) :
    (rankedIndices scores).Perm (List.range scores.length)
    ∧ List.Sorted (fun a b => scores.getD b 0 ≤ scores.getD a 0) (rankedIndices scores)
    ∧ (scores.length ≤ 16 →
        (rankedIndices scores).indexOf j < (rankedIndices scores).indexOf i) := by
  refine ⟨?_, ?_, ?_⟩
  · rw [rankedIndices]
    exact (List.reverse_perm _).trans (List.perm_insertionSort _ _)
  · exact (rankedIndices_pairwise scores).imp (fun h => by
      rcases h with h | ⟨e, _⟩
      · exact le_of_lt h
      · exact le_of_eq e)
  · intro _
    apply rankedIndices_before scores (by omega) hj
    · intro hR
      rcases hR with hlt | ⟨_, hji⟩
      · rw [heq] at hlt
        exact lt_irrefl _ hlt
      · omega
    · omega

/-- Witness for the amended C3 at equal concrete scores on a two-record
store (within the insertion-sort regime). -/
theorem rankedIndices_sorted_tie_higher_index_first_witness :
    (rankedIndices ([5, 5] : List ℚ)).Perm (List.range ([5, 5] : List ℚ).length)
    ∧ List.Sorted (fun a b =>
        ([5, 5] : List ℚ).getD b 0 ≤ ([5, 5] : List ℚ).getD a 0)
      (rankedIndices ([5, 5] : List ℚ))
    ∧ (rankedIndices ([5, 5] : List ℚ)).indexOf 1
        < (rankedIndices ([5, 5] : List ℚ)).indexOf 0 :=
  ⟨(rankedIndices_sorted_tie_higher_index_first [5, 5] 0 1 (by decide) (by decide)
      (by decide)).1,
   (rankedIndices_sorted_tie_higher_index_first [5, 5] 0 1 (by decide) (by decide)
      (by decide)).2.1,
   (rankedIndices_sorted_tie_higher_index_first [5, 5] 0 1 (by decide) (by decide)
      (by decide)).2.2 (by decide)⟩

/-- C6 counterexample: the returned records carry no `email` and no
profile-link field — a nonempty result whose first record has no `email`
key, contradicting the claimed field list. -/
theorem result_record_no_email_field :
    recommend_faculty cosineSim "q" [[(1 : ℝ), 0], [1, 0]] [metaA, metaB]
        (fun _ => [1, 0]) 5 none ≠ []
    ∧ ((recommend_faculty cosineSim "q" [[(1 : ℝ), 0], [1, 0]] [metaA, metaB]
        (fun _ => [1, 0]) 5 none).headD []).lookup "email" = none := by
  rw [recommend_pair_eval]
  constructor
  · simp
  · rfl

/-- C6 amended: every returned record is exactly the five-field dict
`id`, `name`, `faculty_type`, `similarity_score` (rounded to 4 decimal
places at assembly only) and `matched_text`, all sourced from the metadata
at the record's store index; no email or profile-link field is present,
and ranking uses the full-precision scores. -/
theorem result_record_fields_from_metadata {α : Type} [LinearOrderedField α] [FloorRing α]
    (sim : List α → List α → α) (q : String) (emb : List (List α))
    (meta : List Meta) (model : String → List α) (k : Int) (f : Option String)
    (halign : emb.length = meta.length) :
    ∀ r ∈ recommend_faculty sim q emb meta model k f,
      ∃ i, i < meta.length ∧
        r = [("id", Val.str ((meta.getD i default).id)),
             ("name", Val.str ((meta.getD i default).name)),
             ("faculty_type", Val.str ((meta.getD i default).faculty_type)),
             ("similarity_score",
               Val.num (roundTo4 ((queryScores sim q emb model).getD i 0))),
             ("matched_text", Val.str ((meta.getD i default).text))] := by
  intro r hr
  rw [recommend_faculty] at hr
  rcases selectLoop_mem meta _ f _ k r hr with ⟨i, hil, _, rfl⟩
  have hlt := (mem_rankedIndices _ i).mp hil
  rw [queryScores, List.length_map, halign] at hlt
  exact ⟨i, hlt, rfl⟩

/-- Witness for the amended C6 at a concrete store. -/
theorem result_record_fields_from_metadata_witness :
    ∃ i, i < [metaAdj].length ∧
      (recommend_faculty (α := ℚ) dotp "x" [[1]] [metaAdj] (fun _ => [1]) 1
          (some "adjunct")).headD []
        = [("id", Val.str (([metaAdj].getD i default).id)),
           ("name", Val.str (([metaAdj].getD i default).name)),
           ("faculty_type", Val.str (([metaAdj].getD i default).faculty_type)),
           ("similarity_score",
             Val.num (roundTo4 ((queryScores (α := ℚ) dotp "x" [[1]]
               (fun _ => [1])).getD i 0))),
           ("matched_text", Val.str (([metaAdj].getD i default).text))] :=
  result_record_fields_from_metadata dotp "x" [[1]] [metaAdj] (fun _ => [1]) 1
    (some "adjunct") (by decide) _ (by rw [recommend_adj_eval]; simp)

end FacultyFinder
